import Mathlib

/-!
Shallow embedding of the photo-rename core (src/photo_rename) in Lean 4.

Pure code (path manipulation, the uniqueness loop, the mapping-table
operations) is translated directly from the Python source.  External
backends (PIL image opening, pymediainfo, dateutil parsing, strftime,
filesystem stat / rename / exists) are modelled as an explicit
environment of functions whose fallible members return `Except Unit`
(`Except.error ()` models a raised Python exception).  Timestamps are
abstract integers.
-/

namespace PhotoRename

/-- `filing.DateType` enum. -/
inductive DateType where
  | TAKEN
  | UPDATED
  | CREATED
  | MODIFIED
  | MANUAL
  | NO_DATA
deriving DecidableEq, Repr

/-- `filing.DateProperty` dataclass: optional datetime plus its `DateType`.
Datetimes are modelled as abstract integers. -/
structure DateProperty where
  dt : Option Int
  dtype : DateType
deriving DecidableEq, Repr

/-- `model.PathMap` namedtuple `(original_path, mapped_path, dtype)`. -/
structure PathMap where
  original_path : String
  mapped_path : String
  dtype : DateType
deriving DecidableEq, Repr

/-- `shared.NamingMethod` enum. -/
inductive NamingMethod where
  | DATE_ONLY
  | DATE_BEFORE_ORIGINAL
  | DATE_AFTER_ORIGINAL
deriving DecidableEq, Repr

/-- `shared.RenameResult` enum. -/
inductive RenameResult where
  | SUCCESS
  | FAILURE
deriving DecidableEq, Repr

/-- The raw EXIF container as the code reads it: Python truthiness of the
`Image.Exif` mapping, the `get_ifd(34665)[36867]` (DateTimeOriginal) raw
string if that key is present, and the `[306]` (DateTime) raw string if
present. -/
structure Exif where
  nonEmpty : Bool
  dateTimeOriginal : Option String
  dateTime : Option String
deriving DecidableEq, Repr

/-- The `General` track of a `MediaInfo` result: `encoded_date` and
`tagged_date` attributes (None modelled as `none`). -/
structure MediaTrack where
  encoded_date : Option String
  tagged_date : Option String
deriving DecidableEq, Repr

/-- A `MediaInfo.parse` result: the `General` track if one exists.
Accessing an attribute of a missing track raises in Python
(`AttributeError` on `None`), which the embedding models at use sites. -/
structure Media where
  general : Option MediaTrack
deriving DecidableEq, Repr

/-- The external backends used by the core.  `Except.error ()` on a
fallible field models that backend raising an exception for that input.
The finite list `disk` models the set of existing paths for
`os.path.exists`. -/
structure Env where
  disk : List String
  isfile : String → Bool
  imageOpen : String → Except Unit Exif
  mediaParse : String → Except Unit Media
  parseDT : String → Except Unit Int
  strftime : Int → String → String
  stat : String → Except Unit (Int × Int)
  renameRaises : String → String → Bool

/-! ### posixpath / os.path string helpers (CPython algorithms) -/

/-- First character is a slash (`b.startswith('/')` in posixpath.join). -/
def chStartsSlash : List Char → Bool
  | [] => false
  | c :: _ => c = '/'

/-- Last character is a slash (`path.endswith('/')` in posixpath.join). -/
def chEndsSlash (cs : List Char) : Bool :=
  cs.getLast? = some '/'

/-- `posixpath.join(a, b)` for two components, as in CPython. -/
def posixJoin (a b : String) : String :=
  if chStartsSlash b.data then b
  else if a.data = [] ∨ chEndsSlash a.data then ⟨a.data ++ b.data⟩
  else ⟨a.data ++ '/' :: b.data⟩

/-- `posixpath.split(p)` on char lists: split after the last slash, then
strip trailing slashes from the head unless it is all slashes. -/
def osSplitCh (cs : List Char) : List Char × List Char :=
  let revCs := cs.reverse
  let tailRev := revCs.takeWhile (fun c => c ≠ '/')
  let headRev := revCs.drop tailRev.length
  let head :=
    if headRev ≠ [] ∧ ¬ headRev.all (fun c => c = '/') then
      (headRev.dropWhile (fun c => c = '/')).reverse
    else headRev.reverse
  (head, tailRev.reverse)

/-- `os.path.split` (posix flavour) on strings. -/
def osSplit (p : String) : String × String :=
  let r := osSplitCh p.data
  (⟨r.1⟩, ⟨r.2⟩)

/-- `posixpath.splitext(p)` on char lists: split at the last dot of the
basename, unless every character before it in the basename is a dot. -/
def splitExtCh (cs : List Char) : List Char × List Char :=
  let revCs := cs.reverse
  let baseRev := revCs.takeWhile (fun c => c ≠ '/')
  let extRev := baseRev.takeWhile (fun c => c ≠ '.')
  if extRev.length = baseRev.length then (cs, [])
  else
    let stemRevInBase := baseRev.drop (extRev.length + 1)
    if stemRevInBase.any (fun c => c ≠ '.') then
      (cs.take (cs.length - extRev.length - 1), '.' :: extRev.reverse)
    else (cs, [])

/-- `os.path.splitext` (posix flavour) on strings. -/
def splitExt (p : String) : String × String :=
  let r := splitExtCh p.data
  (⟨r.1⟩, ⟨r.2⟩)

/-! ### Decimal rendering of the disambiguation counter (`f"{counter}"`) -/

/-- The decimal digit character for `n < 10`. -/
def digitChar (n : Nat) : Char :=
  match n with
  | 0 => '0' | 1 => '1' | 2 => '2' | 3 => '3' | 4 => '4'
  | 5 => '5' | 6 => '6' | 7 => '7' | 8 => '8' | _ => '9'

/-- Little-endian decimal digits of `n`, with structural fuel. -/
def natDigitsRevAux : Nat → Nat → List Char
  | 0, _ => []
  | fuel + 1, n =>
    if n < 10 then [digitChar n]
    else digitChar (n % 10) :: natDigitsRevAux fuel (n / 10)

/-- Little-endian decimal digits of `n`. -/
def natDigitsRev (n : Nat) : List Char :=
  natDigitsRevAux (n + 1) n

/-- Decimal rendering of a natural number (Python `f"{counter}"`). -/
def natDec (n : Nat) : String :=
  ⟨(natDigitsRev n).reverse⟩

/-- Value of a little-endian digit list; left inverse of `natDigitsRev`. -/
def valRev : List Char → Nat
  | [] => 0
  | c :: cs => (c.toNat - 48) + 10 * valRev cs

/-! ### A model of Python `str.format(name=...)` as used by
`replace_path_filename`.  Only the forms the code can produce are given
semantics: literal text, the escaped braces produced by a double brace,
and the replacement field whose name is exactly `name`.  Any other
replacement field or a stray brace makes CPython raise (`KeyError`,
`ValueError`, or `IndexError`), modelled as `none`.  Format-spec syntax
(a colon inside the field) is not modelled; it never occurs in the
templates the code builds from brace-free inputs. -/

/-- The opening-brace character. -/
def lbrace : Char := Char.ofNat 123

/-- The closing-brace character. -/
def rbrace : Char := Char.ofNat 125

/-- Characters free of both brace characters. -/
def braceFree (cs : List Char) : Bool :=
  cs.all (fun c => c != lbrace && c != rbrace)

/-- Core scanner for `str.format(name=name)`, fuel-structured; the fuel
strictly exceeds the template length at every call from `pyFormat`. -/
def pyFormatCore (name : List Char) : Nat → List Char → Option (List Char)
  | 0, _ => none
  | _ + 1, [] => some []
  | fuel + 1, c :: cs =>
    if c = lbrace then
      match cs with
      | [] => none
      | c2 :: cs2 =>
        if c2 = lbrace then (pyFormatCore name fuel cs2).map (lbrace :: ·)
        else
          let fld := (c2 :: cs2).takeWhile (fun d => d != rbrace)
          match (c2 :: cs2).drop fld.length with
          | [] => none
          | _ :: rest => if fld = ['n', 'a', 'm', 'e'] then
                (pyFormatCore name fuel rest).map (name ++ ·)
              else none
    else if c = rbrace then
      match cs with
      | [] => none
      | c2 :: cs2 =>
        if c2 = rbrace then (pyFormatCore name fuel cs2).map (rbrace :: ·)
        else none
    else (pyFormatCore name fuel cs).map (c :: ·)

/-- `tmpl.format(name=name)`: `none` models a raised exception. -/
def pyFormat (name tmpl : String) : Option String :=
  (pyFormatCore name.data (tmpl.data.length + 1) tmpl.data).map (⟨·⟩)

/-- The literal replacement-field text produced by the f-string escape
in `create_path_map` (an opening brace, `name`, a closing brace). -/
def litName : String :=
  ⟨[lbrace, 'n', 'a', 'm', 'e', rbrace]⟩

/-! ### filing.py -/

/-- Boolean list-prefix test on characters. -/
def chIsPrefixOf : List Char → List Char → Bool
  | [], _ => true
  | _ :: _, [] => false
  | a :: as, b :: bs => a = b && chIsPrefixOf as bs

/-- Boolean substring test (Python `needle in haystack`). -/
def chContainsSub (needle : List Char) : List Char → Bool
  | [] => chIsPrefixOf needle []
  | c :: cs => chIsPrefixOf needle (c :: cs) || chContainsSub needle cs

/-- `filing.extract_base_name`: `os.path.splitext(os.path.basename(p))[0]`. -/
def extract_base_name (path : String) : String :=
  (splitExt (osSplit path).2).1

/-- `filing.extract_suffix`: `os.path.splitext(p)[1]`. -/
def extract_suffix (path : String) : String :=
  (splitExt path).2

/-- The locale-dependent placeholders rejected by validation. -/
def invalid_fms : List String := ["%c", "%x", "%X"]

/-- `filing.extract_invalid_formats`.  The Python builds `list(set(...))`
whose order is unspecified; the embedding keeps the filter order, which
agrees with the source on emptiness and membership. -/
def extract_invalid_formats (date_str : String) : List String :=
  invalid_fms.filter (fun f => chContainsSub f.data date_str.data)

/-- The filesystem-illegal characters rejected by validation. -/
def invalid_chars : List Char := ['<', '>', ':', '\"', '/', '\\', '|', '?', '*']

/-- `filing.extract_invalid_chars`.  The Python builds `list(set(...))`
whose order is unspecified; the embedding deduplicates the filtered
characters, which agrees with the source on emptiness and membership. -/
def extract_invalid_chars (path : String) : List Char :=
  (path.data.filter (fun c => invalid_chars.contains c)).dedup

/-- `filing.replace_path_filename`: split the path, then
`posixpath.join(dir_name, f"{f_name}{ext}".format(name=name))`.
`none` models `str.format` raising. -/
def replace_path_filename (path f_name : String) : Option String :=
  let dir_base := osSplit path
  let name_ext := splitExt dir_base.2
  (pyFormat name_ext.1 (f_name ++ name_ext.2)).map (fun b => posixJoin dir_base.1 b)

/-- `filing._parse_image_metadata`.  Only a missing key (`KeyError`)
falls from the DateTimeOriginal branch to the DateTime branch; a parse
failure propagates out of the function (`Except.error`). -/
def parse_image_metadata (parseDT : String → Except Unit Int) (m : Exif) :
    Except Unit DateProperty :=
  if m.nonEmpty = false then .ok ⟨none, .NO_DATA⟩
  else
    match m.dateTimeOriginal with
    | some s => do
        let t ← parseDT s
        .ok ⟨some t, .TAKEN⟩
    | none =>
      match m.dateTime with
      | some s => do
          let t ← parseDT s
          .ok ⟨some t, .UPDATED⟩
      | none => .ok ⟨none, .NO_DATA⟩

/-- `filing._parse_media_metadata`.  A missing `General` track makes the
attribute access raise (`AttributeError` on `None`); a parse failure
also propagates. -/
def parse_media_metadata (parseDT : String → Except Unit Int) (m : Media) :
    Except Unit DateProperty :=
  match m.general with
  | none => .error ()
  | some track =>
    match track.encoded_date with
    | some d => do
        let t ← parseDT d
        .ok ⟨some t, .TAKEN⟩
    | none =>
      match track.tagged_date with
      | some d => do
          let t ← parseDT d
          .ok ⟨some t, .UPDATED⟩
      | none => .ok ⟨none, .NO_DATA⟩

/-- The first `try` block of `_get_dateproperty_from_metadata`:
`Image.open` (plus `getexif`) followed by `_parse_image_metadata`; any
exception from either is the `error` case. -/
def imageStage (env : Env) (path : String) : Except Unit DateProperty :=
  env.imageOpen path >>= parse_image_metadata env.parseDT

/-- The second `try` block of `_get_dateproperty_from_metadata`:
`MediaInfo.parse` followed by `_parse_media_metadata`. -/
def mediaStage (env : Env) (path : String) : Except Unit DateProperty :=
  env.mediaParse path >>= parse_media_metadata env.parseDT

/-- `filing._get_dateproperty_from_metadata`: the image stage, falling
to the media stage only when the image stage raised, and to `NO_DATA`
when both raised. -/
def get_dateproperty_from_metadata (env : Env) (path : String) : DateProperty :=
  match imageStage env path with
  | .ok d => d
  | .error _ =>
    match mediaStage env path with
    | .ok d => d
    | .error _ => ⟨none, .NO_DATA⟩

/-- `filing._get_dateproperty_from_system`: stat the file, tag the
earlier of ctime/mtime as `CREATED`, else `MODIFIED`; a stat failure
degrades to `NO_DATA`. -/
def get_dateproperty_from_system (env : Env) (path : String) : DateProperty :=
  match env.stat path with
  | .ok (ctime, mtime) =>
    if ctime ≤ mtime then ⟨some ctime, .CREATED⟩
    else ⟨some mtime, .MODIFIED⟩
  | .error _ => ⟨none, .NO_DATA⟩

/-- `filing.resolve_best_datetime`: metadata result if it carries data,
otherwise the filesystem result. -/
def resolve_best_datetime (env : Env) (path : String) : DateProperty :=
  let dpropety := get_dateproperty_from_metadata env path
  if dpropety.dtype ≠ DateType.NO_DATA then dpropety
  else get_dateproperty_from_system env path

/-- The disambiguated candidate built inside the `while` loop of
`get_unique_path`: `posixpath.join(dir_name, f"{name} ({counter}){ext}")`. -/
def mkTrial (dir name ext : String) (counter : Nat) : String :=
  posixJoin dir (name ++ " (" ++ natDec counter ++ ")" ++ ext)

/-- The `while True` loop of `get_unique_path`, fuel-structured.  The
fuel always strictly exceeds the number of possible collisions at the
call sites below, so the cut-off branch is never the returned value. -/
def uniqueLoop (collide : String → Bool) (dir name ext : String) :
    Nat → Nat → String → String
  | 0, _, path => path
  | fuel + 1, counter, path =>
    if collide path then
      uniqueLoop collide dir name ext fuel (counter + 1) (mkTrial dir name ext counter)
    else path

/-- `filing.get_unique_path` generalised over the collision test
(`os.path.exists(path) or path in other_paths`). -/
def get_unique_pathC (collide : String → Bool) (fuel : Nat) (path : String) : String :=
  let dir_base := osSplit path
  let name_ext := splitExt dir_base.2
  uniqueLoop collide dir_base.1 name_ext.1 name_ext.2 fuel 1 path

/-- `filing.get_unique_path` with `other_paths : list[str]`, as called
from `create_path_map`.  `os.path.exists` is membership in the finite
`disk` list. -/
def get_unique_path (disk other_paths : List String) (path : String) : String :=
  get_unique_pathC (fun p => disk.contains p || other_paths.contains p)
    (disk.length + other_paths.length + 2) path

/-- Python `==` applied to a `str` and a `PathMap` namedtuple: CPython
compares a `str` with a `tuple` as unequal, so the result is always
`False`, whatever the contents. -/
def strEqPathMap (_ : String) (_ : PathMap) : Bool := false

/-- `filing.get_unique_path` as called from `update_path_map`, where the
caller passes the list of whole `PathMap` tuples, so the membership test
`path in other_paths` compares a `str` with tuples. -/
def get_unique_path_onPathMaps (disk : List String) (other_paths : List PathMap)
    (path : String) : String :=
  get_unique_pathC
    (fun p => disk.contains p || other_paths.any (fun m => strEqPathMap p m))
    (disk.length + other_paths.length + 2) path

/-! ### model.py -/

/-- The mutable state of `MainWindowModel`: the mapping table
`_path_map` and the raw selection list `_paths`. -/
structure ModelState where
  path_map : List PathMap
  paths : List String
deriving DecidableEq, Repr

/-- The configuration fields `create_path_map` reads. -/
structure Cfg where
  date_format : String
  naming_method : NamingMethod
deriving DecidableEq, Repr

/-- One iteration of the `for path in paths` loop of
`MainWindowModel.create_path_map`, threading `(map_, other_paths)`.
`Except.error ()` models an exception escaping the loop body
(`strftime` on `None`, or `str.format` raising). -/
def createStep (env : Env) (cfg : Cfg) (acc : List PathMap × List String)
    (path : String) : Except Unit (List PathMap × List String) :=
  let dproperty := resolve_best_datetime env path
  if dproperty.dtype ≠ DateType.NO_DATA then
    match dproperty.dt with
    | none => .error ()
    | some t =>
      let f_date := env.strftime t cfg.date_format
      let f_name :=
        match cfg.naming_method with
        | .DATE_ONLY => f_date
        | .DATE_BEFORE_ORIGINAL => f_date ++ litName
        | .DATE_AFTER_ORIGINAL => litName ++ f_date
      match replace_path_filename path f_name with
      | none => .error ()
      | some built =>
        let new_path :=
          if path ≠ built then get_unique_path env.disk acc.2 built
          else path
        .ok (acc.1 ++ [⟨path, new_path, dproperty.dtype⟩], acc.2 ++ [new_path])
  else
    .ok (acc.1 ++ [⟨path, path, dproperty.dtype⟩], acc.2 ++ [path])

/-- `MainWindowModel.create_path_map`: fold the loop body over the
input, then replace the whole state. -/
def create_path_map (env : Env) (cfg : Cfg) (paths : List String) :
    Except Unit ModelState := do
  let r ← paths.foldlM (createStep env cfg) ([], [])
  .ok ⟨r.1, paths⟩

/-- `MainWindowModel.update_path_map`.  Reading `_path_map[index]` out
of range raises (`error`).  When the new path differs from the entry's
original path the code passes the *whole tuples* of the other entries as
`other_paths` (the comprehension iterates over `self._path_map`), so the
uniqueness test against other entries degenerates (`strEqPathMap`).
Returns the new table and the entry stored at `index`. -/
def update_path_map (env : Env) (st : List PathMap) (index : Nat)
    (new_path : String) : Except Unit (List PathMap × PathMap) :=
  match st.get? index with
  | none => .error ()
  | some entry =>
    let original_path := entry.original_path
    let stored :=
      if new_path ≠ original_path then
        let other_paths := (st.enum.filter (fun p => p.1 ≠ index)).map (fun p => p.2)
        get_unique_path_onPathMaps env.disk other_paths new_path
      else new_path
    let new_map : PathMap := ⟨original_path, stored, DateType.MANUAL⟩
    .ok (st.set index new_map, new_map)

/-- `MainWindowModel.apply_path_map`: the indexing happens before the
`try`, so an out-of-range index raises; inside the `try`, equal paths
skip the rename and report success, and a raised `os.rename` is caught
as `FAILURE`. -/
def apply_path_map (env : Env) (st : ModelState) (index : Nat) :
    Except Unit (String × RenameResult) :=
  match st.path_map.get? index with
  | none => .error ()
  | some m =>
    if m.original_path ≠ m.mapped_path then
      if env.renameRaises m.original_path m.mapped_path then
        .ok (m.original_path, .FAILURE)
      else .ok (m.original_path, .SUCCESS)
    else .ok (m.original_path, .SUCCESS)

/-! ### vm.py -/

/-- `vm.FileTypes` allow-list (`get_types`). -/
def FileTypes_all : List String :=
  ["jpg", "jpeg", "png", "bmp", "gif", "heic", "heif"]

/-- Python `str.split(".")` on char lists: cut at every dot, keeping
empty pieces, never dropping the last piece. -/
def chSplitDot : List Char → List (List Char)
  | [] => [[]]
  | c :: cs =>
    if c = '.' then [] :: chSplitDot cs
    else
      match chSplitDot cs with
      | r :: rs => (c :: r) :: rs
      | [] => [[c]]

/-- Python `p.split(".")` on strings. -/
def pySplitDot (s : String) : List String :=
  (chSplitDot s.data).map (fun r => ⟨r⟩)

/-- `MainWindowViewModel.apply_renaming`: apply entries `0..n_files-1`
in order, collecting the per-entry results (`get_n_files` counts
`_paths`). -/
def apply_renaming (env : Env) (st : ModelState) :
    Except Unit (List (String × RenameResult)) :=
  (List.range st.paths.length).mapM (apply_path_map env st)

/-- The filter loop of `MainWindowViewModel.update_paths`: keep `p` when
it is a file and `p.split(".")[1]` is in the allow-list.  The index `[1]`
raises `IndexError` on a dotless path (`error`). -/
def update_paths_filter (env : Env) (paths : List String) :
    Except Unit (List String) :=
  paths.foldlM
    (fun acc p =>
      if env.isfile p then
        match (pySplitDot p).get? 1 with
        | none => .error ()
        | some s => .ok (if FileTypes_all.contains s then acc ++ [p] else acc)
      else .ok acc)
    []

/-- `MainWindowViewModel.update_paths`: the filtered list `paths_` is
computed and then discarded — the model is handed the original `paths`
argument, exactly as in the source. -/
def update_paths (env : Env) (cfg : Cfg) (paths : List String) :
    Except Unit ModelState := do
  let _paths_filtered ← update_paths_filter env paths
  create_path_map env cfg paths

/-! ### Derived notions and concrete instances used by the theorems -/

/-- Whether an `Except` computation returned normally. -/
def exceptOk {α : Type} (x : Except Unit α) : Bool :=
  match x with
  | .ok _ => true
  | .error _ => false

/-- The collision test of `get_unique_path` with string `other_paths`:
`os.path.exists(path) or path in other_paths`. -/
def collides (disk taken : List String) (p : String) : Bool :=
  disk.contains p || taken.contains p

/-- The specified invariant of a resolved `DateProperty`: no timestamp
exactly when the provenance is `NO_DATA`. -/
def dpInv (d : DateProperty) : Prop :=
  d.dt = none ↔ d.dtype = DateType.NO_DATA

/-- The per-entry outcome of `apply_path_map` for an in-range entry. -/
def applyOne (env : Env) (m : PathMap) : String × RenameResult :=
  if m.original_path ≠ m.mapped_path then
    if env.renameRaises m.original_path m.mapped_path then
      (m.original_path, .FAILURE)
    else (m.original_path, .SUCCESS)
  else (m.original_path, .SUCCESS)

/-- What `_get_dateproperty_from_metadata` returns once the image stage
has raised: the media stage's value, or `NO_DATA` if it raised too. -/
def mediaFallback (env : Env) (path : String) : DateProperty :=
  match mediaStage env path with
  | .ok d => d
  | .error _ => ⟨none, .NO_DATA⟩

/-- An environment in which every fallible backend raises. -/
def envFail : Env :=
  { disk := []
    isfile := fun _ => true
    imageOpen := fun _ => .error ()
    mediaParse := fun _ => .error ()
    parseDT := fun _ => .error ()
    strftime := fun _ fmt => fmt
    stat := fun _ => .error ()
    renameRaises := fun _ _ => false }

/-- Backends for a file whose EXIF DateTimeOriginal is present but
malformed while its EXIF DateTime parses to 42. -/
def envC3 : Env :=
  { envFail with
    imageOpen := fun _ => .ok ⟨true, some "bad", some "good"⟩
    parseDT := fun s => if s = "good" then .ok 42 else .error () }

/-- Backends for a file whose EXIF DateTimeOriginal parses to 0;
`strftime` is the passthrough a directive-free format produces. -/
def envC4 : Env :=
  { envFail with
    imageOpen := fun _ => .ok ⟨true, some "dt", none⟩
    parseDT := fun _ => .ok 0 }

/-- `envC4` with a `strftime` producing a fixed brace-free name. -/
def envW4 : Env :=
  { envC4 with strftime := fun _ _ => "D" }

/-- Backends where metadata raises but stat yields `(5, 9)`. -/
def envStat : Env :=
  { envFail with stat := fun _ => .ok (5, 9) }

/-- Backends where renaming exactly `/d/c.jpg` raises. -/
def envRen : Env :=
  { envFail with renameRaises := fun o _ => o == "/d/c.jpg" }

/-- A date-format string consisting of a single opening brace. -/
def fmtBrace : String := ⟨[lbrace]⟩

/-- Configuration with the brace format and `DATE_ONLY`. -/
def cfgC4 : Cfg := ⟨fmtBrace, NamingMethod.DATE_ONLY⟩

/-- Configuration used with `envW4`. -/
def cfgW4 : Cfg := ⟨"fmt", NamingMethod.DATE_BEFORE_ORIGINAL⟩

/-- A plain configuration for the selection entry point. -/
def cfg0 : Cfg := ⟨"fmt", NamingMethod.DATE_ONLY⟩

/-- A two-entry table whose second entry's mapped path is `/d/x.jpg`. -/
def stC1 : List PathMap :=
  [⟨"/d/a.jpg", "/d/old.jpg", .TAKEN⟩, ⟨"/d/b.jpg", "/d/x.jpg", .TAKEN⟩]

/-- A five-entry model state; entry index 2 is the one `envRen` fails,
and the last entry maps to itself. -/
def stW9 : ModelState :=
  { path_map :=
      [⟨"/d/a.jpg", "/d/1.jpg", .TAKEN⟩, ⟨"/d/b.jpg", "/d/2.jpg", .TAKEN⟩,
       ⟨"/d/c.jpg", "/d/3.jpg", .TAKEN⟩, ⟨"/d/d.jpg", "/d/4.jpg", .TAKEN⟩,
       ⟨"/d/e.jpg", "/d/e.jpg", .MANUAL⟩]
    paths := ["/d/a.jpg", "/d/b.jpg", "/d/c.jpg", "/d/d.jpg", "/d/e.jpg"] }

/-! ### Supporting lemmas: the decimal counter is injective -/

theorem digitChar_toNat {n : Nat} (h : n < 10) : (digitChar n).toNat = 48 + n := by
  interval_cases n <;> rfl

theorem valRev_natDigitsRevAux :
    ∀ fuel n, n < fuel → valRev (natDigitsRevAux fuel n) = n := by
  intro fuel
  induction fuel with
  | zero => intro n h; omega
  | succ f ih =>
    intro n h
    unfold natDigitsRevAux
    by_cases h10 : n < 10
    · simp only [h10, if_true, valRev, digitChar_toNat h10]
      omega
    · have hd : n / 10 < f := by omega
      have hm : n % 10 < 10 := Nat.mod_lt _ (by norm_num)
      simp only [h10, if_false, valRev, digitChar_toNat hm, ih _ hd]
      omega

theorem natDec_inj {m n : Nat} (h : natDec m = natDec n) : m = n := by
  have h1 : (natDigitsRev m).reverse = (natDigitsRev n).reverse :=
    congrArg String.data h
  have h2 : natDigitsRev m = natDigitsRev n := by
    simpa using congrArg List.reverse h1
  have hm := valRev_natDigitsRevAux (m + 1) m (by omega)
  have hn := valRev_natDigitsRevAux (n + 1) n (by omega)
  unfold natDigitsRev at h2
  rw [← hm, ← hn, h2]

/-! ### Supporting lemmas: disambiguated candidates are pairwise distinct -/

theorem chStartsSlash_append (l1 : List Char) (c : Char) (l2 l2' : List Char) :
    chStartsSlash (l1 ++ c :: l2) = chStartsSlash (l1 ++ c :: l2') := by
  cases l1 <;> simp [chStartsSlash]

/-- Character data of the loop's candidate string, right-associated. -/
theorem mkTrial_data (name ext : String) (i : Nat) :
    (name ++ " (" ++ natDec i ++ ")" ++ ext).data =
      name.data ++ ' ' :: '(' :: ((natDec i).data ++ ')' :: ext.data) := by
  simp [String.data_append, List.append_assoc]

/-- `posixpath.join` with a fixed head is injective on tails that agree
on whether they are absolute. -/
theorem posixJoin_inj (a : String) {b b' : String}
    (hbr : chStartsSlash b.data = chStartsSlash b'.data)
    (h : posixJoin a b = posixJoin a b') : b.data = b'.data := by
  unfold posixJoin at h
  by_cases hc : chStartsSlash b'.data = true
  · rw [if_pos (hbr.trans hc), if_pos hc] at h
    exact congrArg String.data h
  · rw [if_neg (fun hh => hc (hbr.symm.trans hh)), if_neg hc] at h
    by_cases h2 : a.data = [] ∨ chEndsSlash a.data = true
    · rw [if_pos h2, if_pos h2] at h
      exact List.append_cancel_left (congrArg String.data h)
    · rw [if_neg h2, if_neg h2] at h
      exact List.cons_injective (List.append_cancel_left (congrArg String.data h))

theorem mkTrial_inj (dir name ext : String) {i j : Nat}
    (h : mkTrial dir name ext i = mkTrial dir name ext j) : i = j := by
  unfold mkTrial at h
  have hbr : chStartsSlash (name ++ " (" ++ natDec i ++ ")" ++ ext).data =
      chStartsSlash (name ++ " (" ++ natDec j ++ ")" ++ ext).data := by
    rw [mkTrial_data name ext i, mkTrial_data name ext j]
    exact chStartsSlash_append name.data ' ' _ _
  have hdata := posixJoin_inj dir hbr h
  rw [mkTrial_data name ext i, mkTrial_data name ext j] at hdata
  have h3 := List.append_cancel_left hdata
  have h4 := List.cons_injective h3
  have h5 := List.cons_injective h4
  have h6 : (natDec i).data = (natDec j).data := List.append_cancel_right h5
  have h7 : natDec i = natDec j := by
    cases hni : natDec i with
    | mk di =>
      cases hnj : natDec j with
      | mk dj =>
        rw [hni, hnj] at h6
        exact congrArg String.mk h6
  exact natDec_inj h7

/-! ### Supporting lemmas: the collision loop finds the least free counter -/

/-- Pigeonhole: when every colliding path lies in a finite list, some
counter below `bad.length + 2` yields a collision-free candidate. -/
theorem exists_free_trial (collide : String → Bool) (bad : List String)
    (hc : ∀ p, collide p = true → p ∈ bad) (dir name ext : String) :
    ∃ i, 1 ≤ i ∧ i < bad.length + 2 ∧
      collide (mkTrial dir name ext i) = false := by
  by_contra hno
  push_neg at hno
  have hall : ∀ i, 1 ≤ i → i < bad.length + 2 →
      collide (mkTrial dir name ext i) = true := by
    intro i h1 h2
    have := hno i h1 h2
    simpa using this
  set l := (List.range' 1 (bad.length + 1)).map (mkTrial dir name ext) with hl
  have hnodup : l.Nodup := by
    refine (List.nodup_range' 1 (bad.length + 1)).map ?_
    intro x y hxy
    exact mkTrial_inj dir name ext hxy
  have hsub : ∀ x ∈ l, x ∈ bad := by
    intro x hx
    rw [hl, List.mem_map] at hx
    obtain ⟨i, hi, rfl⟩ := hx
    rw [List.mem_range'] at hi
    obtain ⟨k, hk, rfl⟩ := hi
    exact hc _ (hall (1 + 1 * k) (by omega) (by omega))
  have hlen : l.length = bad.length + 1 := by simp [hl]
  have hcard1 : l.toFinset.card = l.length := List.toFinset_card_of_nodup hnodup
  have hcard2 : l.toFinset ⊆ bad.toFinset := by
    intro x hx
    rw [List.mem_toFinset] at hx ⊢
    exact hsub x hx
  have := Finset.card_le_card hcard2
  have := List.toFinset_card_le bad
  omega

theorem uniqueLoop_of_not_collide (collide : String → Bool) (dir name ext : String)
    (path : String) (h : collide path = false) (fuel counter : Nat) :
    uniqueLoop collide dir name ext fuel counter path = path := by
  cases fuel <;> simp [uniqueLoop, h]

/-- When the window `[counter, counter + fuel)` holds a free counter and
the current path collides, the loop returns the candidate of the least
free counter at or above `counter`. -/
theorem uniqueLoop_spec (collide : String → Bool) (dir name ext : String) :
    ∀ (fuel counter : Nat) (path : String),
      (∃ i, counter ≤ i ∧ i < counter + fuel ∧
        collide (mkTrial dir name ext i) = false) →
      collide path = true →
      ∃ i, counter ≤ i ∧ collide (mkTrial dir name ext i) = false ∧
        (∀ j, counter ≤ j → j < i → collide (mkTrial dir name ext j) = true) ∧
        uniqueLoop collide dir name ext fuel counter path = mkTrial dir name ext i := by
  intro fuel
  induction fuel with
  | zero =>
    rintro counter path ⟨i, h1, h2, -⟩ -
    omega
  | succ f ih =>
    intro counter path hex hcol
    have hstep : uniqueLoop collide dir name ext (f + 1) counter path =
        uniqueLoop collide dir name ext f (counter + 1) (mkTrial dir name ext counter) := by
      simp [uniqueLoop, hcol]
    by_cases hc : collide (mkTrial dir name ext counter) = true
    · obtain ⟨i, hi1, hi2, hi3⟩ := hex
      have hine : i ≠ counter := by
        intro he
        rw [he, hc] at hi3
        cases hi3
      obtain ⟨i', h1, h2, h3, h4⟩ :=
        ih (counter + 1) (mkTrial dir name ext counter)
          ⟨i, by omega, by omega, hi3⟩ hc
      refine ⟨i', by omega, h2, ?_, hstep.trans h4⟩
      intro j hj1 hj2
      by_cases hj : j = counter
      · rw [hj]; exact hc
      · exact h3 j (by omega) hj2
    · have hc' : collide (mkTrial dir name ext counter) = false := by
        simpa using hc
      refine ⟨counter, le_refl _, hc', ?_, ?_⟩
      · intro j hj1 hj2; omega
      · exact hstep.trans
          (uniqueLoop_of_not_collide collide dir name ext _ hc' f (counter + 1))

theorem collides_mem {disk taken : List String} {p : String}
    (hp : collides disk taken p = true) : p ∈ disk ++ taken := by
  unfold collides at hp
  rw [Bool.or_eq_true] at hp
  rw [List.mem_append]
  rcases hp with h | h
  · left; simpa using h
  · right; simpa using h

/-! ### Supporting lemmas: the NO_DATA invariant of every strategy -/

theorem dpInv_parse_image (p : String → Except Unit Int) (e : Exif)
    (d : DateProperty) (h : parse_image_metadata p e = .ok d) : dpInv d := by
  unfold parse_image_metadata at h
  by_cases hne : e.nonEmpty = false
  · rw [if_pos hne] at h
    rw [← Except.ok.inj h]
    simp [dpInv]
  · rw [if_neg hne] at h
    cases hdto : e.dateTimeOriginal with
    | some s =>
      rw [hdto] at h
      dsimp only at h
      cases hp : p s with
      | ok t =>
        rw [hp] at h
        have h' : Except.ok (ε := Unit) (⟨some t, DateType.TAKEN⟩ : DateProperty) =
            .ok d := h
        rw [← Except.ok.inj h']
        simp [dpInv]
      | error u =>
        rw [hp] at h
        exact Except.noConfusion h
    | none =>
      rw [hdto] at h
      dsimp only at h
      cases hdt : e.dateTime with
      | some s =>
        rw [hdt] at h
        dsimp only at h
        cases hp : p s with
        | ok t =>
          rw [hp] at h
          have h' : Except.ok (ε := Unit) (⟨some t, DateType.UPDATED⟩ : DateProperty) =
              .ok d := h
          rw [← Except.ok.inj h']
          simp [dpInv]
        | error u =>
          rw [hp] at h
          exact Except.noConfusion h
      | none =>
        rw [hdt] at h
        dsimp only at h
        rw [← Except.ok.inj h]
        simp [dpInv]

theorem dpInv_parse_media (p : String → Except Unit Int) (m : Media)
    (d : DateProperty) (h : parse_media_metadata p m = .ok d) : dpInv d := by
  unfold parse_media_metadata at h
  cases hg : m.general with
  | none =>
    rw [hg] at h
    dsimp only at h
    exact Except.noConfusion h
  | some track =>
    rw [hg] at h
    dsimp only at h
    cases he : track.encoded_date with
    | some s =>
      rw [he] at h
      dsimp only at h
      cases hp : p s with
      | ok t =>
        rw [hp] at h
        have h' : Except.ok (ε := Unit) (⟨some t, DateType.TAKEN⟩ : DateProperty) =
            .ok d := h
        rw [← Except.ok.inj h']
        simp [dpInv]
      | error u =>
        rw [hp] at h
        exact Except.noConfusion h
    | none =>
      rw [he] at h
      dsimp only at h
      cases ht : track.tagged_date with
      | some s =>
        rw [ht] at h
        dsimp only at h
        cases hp : p s with
        | ok t =>
          rw [hp] at h
          have h' : Except.ok (ε := Unit) (⟨some t, DateType.UPDATED⟩ : DateProperty) =
              .ok d := h
          rw [← Except.ok.inj h']
          simp [dpInv]
        | error u =>
          rw [hp] at h
          exact Except.noConfusion h
      | none =>
        rw [ht] at h
        dsimp only at h
        rw [← Except.ok.inj h]
        simp [dpInv]

theorem dpInv_metadata (env : Env) (path : String) :
    dpInv (get_dateproperty_from_metadata env path) := by
  unfold get_dateproperty_from_metadata
  cases hi : imageStage env path with
  | ok d =>
    unfold imageStage at hi
    cases ho : env.imageOpen path with
    | ok e =>
      rw [ho] at hi
      exact dpInv_parse_image env.parseDT e d hi
    | error u =>
      rw [ho] at hi
      exact Except.noConfusion hi
  | error u =>
    cases hm : mediaStage env path with
    | ok d =>
      unfold mediaStage at hm
      cases ho : env.mediaParse path with
      | ok m =>
        rw [ho] at hm
        exact dpInv_parse_media env.parseDT m d hm
      | error u2 =>
        rw [ho] at hm
        exact Except.noConfusion hm
    | error u2 =>
      simp [dpInv]

theorem dpInv_system (env : Env) (path : String) :
    dpInv (get_dateproperty_from_system env path) := by
  unfold get_dateproperty_from_system
  cases hs : env.stat path with
  | ok cm =>
    obtain ⟨c, m⟩ := cm
    by_cases hcm : c ≤ m
    · simp [hcm, dpInv]
    · simp [hcm, dpInv]
  | error u =>
    simp [dpInv]

theorem dpInv_resolve (env : Env) (path : String) :
    dpInv (resolve_best_datetime env path) := by
  show dpInv (if (get_dateproperty_from_metadata env path).dtype ≠ DateType.NO_DATA
    then get_dateproperty_from_metadata env path
    else get_dateproperty_from_system env path)
  by_cases h : (get_dateproperty_from_metadata env path).dtype ≠ DateType.NO_DATA
  · rw [if_pos h]
    exact dpInv_metadata env path
  · rw [if_neg h]
    exact dpInv_system env path

/-! ### Claim theorems -/

/-- C8: `get_unique_path` returns the candidate unchanged when it is
neither on disk nor taken; otherwise it returns the candidate's
directory joined with its stem, a parenthesised counter and its
extension, for the least counter `i ≥ 1` whose result is neither on
disk nor taken. -/
theorem get_unique_path_spec (disk taken : List String) (path : String) :
    (collides disk taken path = false → get_unique_path disk taken path = path) ∧
    (collides disk taken path = true →
      ∃ i, 1 ≤ i ∧
        get_unique_path disk taken path =
          mkTrial (osSplit path).1 (splitExt (osSplit path).2).1
            (splitExt (osSplit path).2).2 i ∧
        collides disk taken
          (mkTrial (osSplit path).1 (splitExt (osSplit path).2).1
            (splitExt (osSplit path).2).2 i) = false ∧
        ∀ j, 1 ≤ j → j < i →
          collides disk taken
            (mkTrial (osSplit path).1 (splitExt (osSplit path).2).1
              (splitExt (osSplit path).2).2 j) = true) := by
  constructor
  · intro h
    exact uniqueLoop_of_not_collide (collides disk taken) (osSplit path).1
      (splitExt (osSplit path).2).1 (splitExt (osSplit path).2).2 path h
      (disk.length + taken.length + 2) 1
  · intro h
    obtain ⟨i, h1, h2, h3⟩ := exists_free_trial (collides disk taken)
      (disk ++ taken) (fun p hp => collides_mem hp) (osSplit path).1
      (splitExt (osSplit path).2).1 (splitExt (osSplit path).2).2
    have h2' : i < 1 + (disk.length + taken.length + 2) := by
      rw [List.length_append] at h2
      omega
    obtain ⟨i', hA, hB, hC, hD⟩ := uniqueLoop_spec (collides disk taken)
      (osSplit path).1 (splitExt (osSplit path).2).1 (splitExt (osSplit path).2).2
      (disk.length + taken.length + 2) 1 path ⟨i, h1, h2', h3⟩ h
    exact ⟨i', hA, hD, hB, hC⟩

/-- C8 witness: a fresh candidate is returned unchanged. -/
theorem get_unique_path_spec_witness :
    get_unique_path [] [] "/d/x.jpg" = "/d/x.jpg" :=
  (get_unique_path_spec [] [] "/d/x.jpg").1 (by decide)

/-- C6: every `DateProperty` produced by `resolve_best_datetime` or any
of its source strategies has `dt = none` exactly when its provenance is
`NO_DATA`. -/
theorem resolver_no_data_invariant (env : Env) (path : String) :
    dpInv (resolve_best_datetime env path) ∧
    dpInv (get_dateproperty_from_metadata env path) ∧
    dpInv (get_dateproperty_from_system env path) ∧
    (∀ e d, parse_image_metadata env.parseDT e = .ok d → dpInv d) ∧
    (∀ m d, parse_media_metadata env.parseDT m = .ok d → dpInv d) :=
  ⟨dpInv_resolve env path, dpInv_metadata env path, dpInv_system env path,
   fun e d h => dpInv_parse_image env.parseDT e d h,
   fun m d h => dpInv_parse_media env.parseDT m d h⟩

/-- C6 witness: the invariant at a concrete strategy output. -/
theorem resolver_no_data_invariant_witness :
    dpInv (⟨some 42, DateType.TAKEN⟩ : DateProperty) :=
  (resolver_no_data_invariant envC3 "/d/a.jpg").2.2.2.1
    ⟨true, some "good", none⟩ ⟨some 42, DateType.TAKEN⟩ (by rfl)

/-- C5: every backend exception is absorbed locally: a raised image
stage falls to the media stage, both stages raising degrades the
metadata result to `NO_DATA`, a raised stat degrades the filesystem
result to `NO_DATA`, and `resolve_best_datetime` always returns either
the metadata result or the filesystem result, so it is total for every
behaviour of the backends. -/
theorem resolve_absorbs_backend_errors (env : Env) (path : String) :
    (imageStage env path = .error () →
      get_dateproperty_from_metadata env path = mediaFallback env path) ∧
    (imageStage env path = .error () → mediaStage env path = .error () →
      get_dateproperty_from_metadata env path = ⟨none, DateType.NO_DATA⟩) ∧
    (env.stat path = .error () →
      get_dateproperty_from_system env path = ⟨none, DateType.NO_DATA⟩) ∧
    ((get_dateproperty_from_metadata env path).dtype = DateType.NO_DATA →
      resolve_best_datetime env path = get_dateproperty_from_system env path) ∧
    ((get_dateproperty_from_metadata env path).dtype ≠ DateType.NO_DATA →
      resolve_best_datetime env path = get_dateproperty_from_metadata env path) := by
  refine ⟨?_, ?_, ?_, ?_, ?_⟩
  · intro h1
    unfold get_dateproperty_from_metadata mediaFallback
    rw [h1]
  · intro h1 h2
    unfold get_dateproperty_from_metadata
    rw [h1, h2]
  · intro h
    unfold get_dateproperty_from_system
    rw [h]
  · intro h
    show (if (get_dateproperty_from_metadata env path).dtype ≠ DateType.NO_DATA
      then get_dateproperty_from_metadata env path
      else get_dateproperty_from_system env path) = _
    rw [if_neg (by simpa using h)]
  · intro h
    show (if (get_dateproperty_from_metadata env path).dtype ≠ DateType.NO_DATA
      then get_dateproperty_from_metadata env path
      else get_dateproperty_from_system env path) = _
    rw [if_pos h]

/-- C5 witness: with every backend raising, resolution degrades to
`NO_DATA` step by step. -/
theorem resolve_absorbs_backend_errors_witness :
    resolve_best_datetime envFail "/d/a.jpg" = ⟨none, DateType.NO_DATA⟩ := by
  obtain ⟨-, h2, h3, h4, -⟩ := resolve_absorbs_backend_errors envFail "/d/a.jpg"
  rw [h4 (by rw [h2 rfl rfl]), h3 rfl]

/-- C7: when the metadata stages yield no usable date and stat succeeds
with `(ctime, mtime)`, resolution returns `CREATED` with `ctime` when
`ctime ≤ mtime`, else `MODIFIED` with `mtime`. -/
theorem system_fallback_spec (env : Env) (path : String) (c m : Int)
    (h1 : (get_dateproperty_from_metadata env path).dtype = DateType.NO_DATA)
    (h2 : env.stat path = .ok (c, m)) :
    resolve_best_datetime env path =
      if c ≤ m then ⟨some c, DateType.CREATED⟩
      else ⟨some m, DateType.MODIFIED⟩ := by
  have hres : resolve_best_datetime env path = get_dateproperty_from_system env path := by
    show (if (get_dateproperty_from_metadata env path).dtype ≠ DateType.NO_DATA
      then get_dateproperty_from_metadata env path
      else get_dateproperty_from_system env path) = _
    rw [if_neg (by simpa using h1)]
  rw [hres]
  unfold get_dateproperty_from_system
  rw [h2]

/-- C7 witness: stat `(5, 9)` with failing metadata backends yields
`CREATED` at 5. -/
theorem system_fallback_spec_witness :
    resolve_best_datetime envStat "/d/a.jpg" = ⟨some 5, DateType.CREATED⟩ := by
  have h := system_fallback_spec envStat "/d/a.jpg" 5 9 (by rfl) (by rfl)
  simpa using h

/-- C3 counterexample: a present but unparseable DateTimeOriginal next
to a parseable DateTime does not produce `UPDATED`; the parse error
aborts the whole image stage, and with the remaining backends failing
the resolution is `NO_DATA`. -/
theorem parse_failure_skips_datetime_field :
    envC3.imageOpen "/d/a.jpg" = .ok ⟨true, some "bad", some "good"⟩ ∧
    envC3.parseDT "bad" = .error () ∧
    envC3.parseDT "good" = .ok 42 ∧
    resolve_best_datetime envC3 "/d/a.jpg" = ⟨none, DateType.NO_DATA⟩ ∧
    (resolve_best_datetime envC3 "/d/a.jpg" ==
      (⟨some 42, DateType.UPDATED⟩ : DateProperty)) = false :=
  ⟨rfl, rfl, rfl, rfl, by rfl⟩

/-- C3 amended: a parse failure on a present DateTimeOriginal falls
through to the media-container stage (then the filesystem), never to
the DateTime field of the same image metadata; the DateTime field is
consulted only when DateTimeOriginal is absent. -/
theorem parse_failure_falls_to_media (env : Env) (path : String) (e : Exif)
    (h1 : env.imageOpen path = .ok e) (h2 : e.nonEmpty = true) :
    (∀ s, e.dateTimeOriginal = some s → env.parseDT s = .error () →
      get_dateproperty_from_metadata env path = mediaFallback env path) ∧
    (∀ s t, e.dateTimeOriginal = none → e.dateTime = some s →
      env.parseDT s = .ok t →
      get_dateproperty_from_metadata env path = ⟨some t, DateType.UPDATED⟩) := by
  have hne : e.nonEmpty = false → False := by
    intro hf
    rw [h2] at hf
    cases hf
  constructor
  · intro s hdto hp
    have himg : imageStage env path = .error () := by
      unfold imageStage
      rw [h1]
      show parse_image_metadata env.parseDT e = .error ()
      unfold parse_image_metadata
      rw [if_neg hne, hdto]
      dsimp only
      rw [hp]
      rfl
    unfold get_dateproperty_from_metadata mediaFallback
    rw [himg]
  · intro s t hdto hdt hp
    have himg : imageStage env path = .ok ⟨some t, DateType.UPDATED⟩ := by
      unfold imageStage
      rw [h1]
      show parse_image_metadata env.parseDT e = .ok ⟨some t, DateType.UPDATED⟩
      unfold parse_image_metadata
      rw [if_neg hne, hdto]
      dsimp only
      rw [hdt]
      dsimp only
      rw [hp]
      rfl
    unfold get_dateproperty_from_metadata
    rw [himg]

/-- C3 amended witness: the fall-through at the concrete backends. -/
theorem parse_failure_falls_to_media_witness :
    get_dateproperty_from_metadata envC3 "/d/a.jpg" = mediaFallback envC3 "/d/a.jpg" :=
  (parse_failure_falls_to_media envC3 "/d/a.jpg" ⟨true, some "bad", some "good"⟩
    rfl rfl).1 "bad" rfl rfl

/-- C1: `update_path_map` at index 0 with a fresh path equal to entry
1's mapped path stores it verbatim — the membership test against the
other entries compares the string with `PathMap` tuples and never
matches, so the stored mapped path duplicates entry 1's mapped path
even though it differs from entry 0's original path and nothing is on
disk. -/
theorem update_duplicates_mapped_path :
    stC1.get? 1 = some ⟨"/d/b.jpg", "/d/x.jpg", DateType.TAKEN⟩ ∧
    (("/d/x.jpg" : String) == "/d/a.jpg") = false ∧
    envFail.disk = [] ∧
    update_path_map envFail stC1 0 "/d/x.jpg" =
      .ok ([⟨"/d/a.jpg", "/d/x.jpg", .MANUAL⟩, ⟨"/d/b.jpg", "/d/x.jpg", .TAKEN⟩],
        ⟨"/d/a.jpg", "/d/x.jpg", .MANUAL⟩) :=
  ⟨rfl, by decide, rfl, rfl⟩

/-- C2: `update_paths` builds the filtered list (which correctly drops
the `txt` path) but hands the model the unfiltered argument, so the
disallowed path still becomes a table entry. -/
theorem update_paths_ignores_filter :
    FileTypes_all.contains "txt" = false ∧
    update_paths_filter envFail ["/d/a.txt"] = .ok [] ∧
    update_paths envFail cfg0 ["/d/a.txt"] =
      .ok ⟨[⟨"/d/a.txt", "/d/a.txt", DateType.NO_DATA⟩], ["/d/a.txt"]⟩ :=
  ⟨by decide, rfl, rfl⟩

/-- C10: updating an entry with its own original path skips the
uniqueness check (the result is the same for every environment), stores
the original path as the mapped path, unconditionally sets the
provenance to `MANUAL`, and leaves every other entry unchanged. -/
theorem update_path_map_same_path (env : Env) (st : List PathMap) (index : Nat)
    (entry : PathMap) (h : st.get? index = some entry) :
    update_path_map env st index entry.original_path =
      .ok (st.set index ⟨entry.original_path, entry.original_path, DateType.MANUAL⟩,
        ⟨entry.original_path, entry.original_path, DateType.MANUAL⟩) ∧
    (st.set index ⟨entry.original_path, entry.original_path, DateType.MANUAL⟩).get?
        index = some ⟨entry.original_path, entry.original_path, DateType.MANUAL⟩ ∧
    (∀ j, j ≠ index →
      (st.set index
        ⟨entry.original_path, entry.original_path, DateType.MANUAL⟩).get? j =
        st.get? j) := by
  refine ⟨?_, ?_, ?_⟩
  · unfold update_path_map
    rw [h]
    dsimp only
    rw [if_neg (fun hx => hx rfl)]
  · have hlt : index < st.length := by
      by_contra hge
      rw [List.get?_eq_getElem?, List.getElem?_eq_none (by omega)] at h
      cases h
    rw [List.get?_eq_getElem?]
    exact List.getElem?_set_self hlt
  · intro j hj
    rw [List.get?_eq_getElem?, List.get?_eq_getElem?]
    exact List.getElem?_set_ne (Ne.symm hj)

/-- C10 witness: a no-change edit of entry 1 turns its provenance from
`TAKEN` into `MANUAL` and leaves entry 0 alone. -/
theorem update_path_map_same_path_witness :
    update_path_map envFail stC1 1 "/d/b.jpg" =
      .ok ([⟨"/d/a.jpg", "/d/old.jpg", .TAKEN⟩, ⟨"/d/b.jpg", "/d/b.jpg", .MANUAL⟩],
        ⟨"/d/b.jpg", "/d/b.jpg", .MANUAL⟩) := by
  have h := (update_path_map_same_path envFail stC1 1
    ⟨"/d/b.jpg", "/d/x.jpg", .TAKEN⟩ rfl).1
  exact h.trans (by rfl)

/-! ### Supporting lemmas: the batch apply loop -/

theorem apply_path_map_eq (env : Env) (st : ModelState) (i : Nat) :
    apply_path_map env st i =
      match st.path_map.get? i with
      | none => Except.error ()
      | some m => Except.ok (applyOne env m) := by
  unfold apply_path_map applyOne
  cases st.path_map.get? i with
  | none => rfl
  | some m =>
    dsimp only
    by_cases h1 : m.original_path ≠ m.mapped_path
    · rw [if_pos h1, if_pos h1]
      by_cases h2 : env.renameRaises m.original_path m.mapped_path = true
      · rw [if_pos h2, if_pos h2]
      · rw [if_neg h2, if_neg h2]
    · rw [if_neg h1, if_neg h1]

theorem mapM_get_range (g : PathMap → String × RenameResult) :
    ∀ (l pre : List PathMap),
      ((List.range' pre.length l.length).mapM (fun i =>
        match (pre ++ l).get? i with
        | none => Except.error ()
        | some m => Except.ok (g m))) = Except.ok (l.map g) := by
  intro l
  induction l with
  | nil => intro pre; rfl
  | cons a l ih =>
    intro pre
    have hrange : List.range' pre.length (a :: l).length =
        pre.length :: List.range' (pre.length + 1) l.length := rfl
    rw [hrange, List.mapM_cons]
    have hget : (pre ++ a :: l).get? pre.length = some a := by
      rw [List.get?_eq_getElem?, List.getElem?_append_right (le_refl pre.length)]
      simp
    have ih' := ih (pre ++ [a])
    rw [show (pre ++ [a]).length = pre.length + 1 by simp] at ih'
    rw [show (pre ++ [a]) ++ l = pre ++ a :: l by simp] at ih'
    simp only [hget, ih']
    rfl

/-- C9: with the selection list and the table of equal length (as every
reachable state has), the batch apply returns one `(original, outcome)`
pair per entry in table order; each entry's outcome depends on that
entry alone, a raised rename makes that entry — and only that entry —
report `FAILURE`, and an entry mapped to its own original path reports
`SUCCESS` under every environment. -/
theorem apply_renaming_spec (env : Env) (st : ModelState)
    (h : st.paths.length = st.path_map.length) :
    apply_renaming env st = .ok (st.path_map.map (applyOne env)) ∧
    (st.path_map.map (applyOne env)).length = st.path_map.length ∧
    (∀ i m, st.path_map.get? i = some m →
      (st.path_map.map (applyOne env)).get? i = some (applyOne env m)) ∧
    (∀ i m, st.path_map.get? i = some m → m.original_path ≠ m.mapped_path →
      env.renameRaises m.original_path m.mapped_path = true →
      (st.path_map.map (applyOne env)).get? i =
        some (m.original_path, RenameResult.FAILURE)) ∧
    (∀ (m : PathMap) (env' : Env), m.original_path = m.mapped_path →
      applyOne env' m = (m.original_path, RenameResult.SUCCESS)) := by
  refine ⟨?_, by simp, ?_, ?_, ?_⟩
  · unfold apply_renaming
    rw [h, List.range_eq_range']
    have hfun : (apply_path_map env st) = fun i =>
        match st.path_map.get? i with
        | none => Except.error ()
        | some m => Except.ok (applyOne env m) :=
      funext (fun i => apply_path_map_eq env st i)
    rw [hfun]
    have := mapM_get_range (applyOne env) st.path_map []
    simpa using this
  · intro i m hm
    rw [List.get?_eq_getElem?, List.getElem?_map,
      ← List.get?_eq_getElem?, hm]
    rfl
  · intro i m hm h1 h2
    rw [List.get?_eq_getElem?, List.getElem?_map,
      ← List.get?_eq_getElem?, hm]
    show some (applyOne env m) = _
    unfold applyOne
    rw [if_pos h1, if_pos h2]
  · intro m env' he
    unfold applyOne
    rw [if_neg (fun hx => hx he)]

/-- C9 witness: five entries, a backend that fails renaming the third,
the last mapped to itself — five results, `FAILURE` exactly at the
third. -/
theorem apply_renaming_spec_witness :
    apply_renaming envRen stW9 = .ok
      [("/d/a.jpg", RenameResult.SUCCESS), ("/d/b.jpg", RenameResult.SUCCESS),
       ("/d/c.jpg", RenameResult.FAILURE), ("/d/d.jpg", RenameResult.SUCCESS),
       ("/d/e.jpg", RenameResult.SUCCESS)] := by
  have h := (apply_renaming_spec envRen stW9 (by rfl)).1
  exact h.trans (by rfl)

/-! ### Supporting lemmas: when `str.format` cannot raise -/

theorem pyFormatCore_braceFree (name : List Char) :
    ∀ fuel cs, cs.length < fuel → braceFree cs = true →
      pyFormatCore name fuel cs = some cs := by
  intro fuel
  induction fuel with
  | zero => intro cs h _; omega
  | succ f ih =>
    intro cs hlen hbf
    cases cs with
    | nil => rfl
    | cons c cs' =>
      obtain ⟨hc, hcs⟩ := Bool.and_eq_true_iff.mp
        (show ((c != lbrace && c != rbrace) && braceFree cs') = true from hbf)
      obtain ⟨hc1, hc2⟩ := Bool.and_eq_true_iff.mp hc
      unfold pyFormatCore
      rw [if_neg (by simpa using hc1), if_neg (by simpa using hc2)]
      rw [ih cs' (by simp at hlen; omega) hcs]
      rfl

theorem pyFormatCore_litName (name post : List Char)
    (hpost : braceFree post = true) :
    ∀ pre fuel, braceFree pre = true →
      (pre ++ litName.data ++ post).length < fuel →
      pyFormatCore name fuel (pre ++ litName.data ++ post) =
        some (pre ++ name ++ post) := by
  intro pre
  induction pre with
  | nil =>
    intro fuel _ hlen
    cases fuel with
    | zero => simp at hlen
    | succ f =>
      have hplen : post.length < f := by
        simp [litName] at hlen
        omega
      have heq : pyFormatCore name (f + 1)
          ([] ++ litName.data ++ post) =
          (pyFormatCore name f post).map (fun r => name ++ r) := rfl
      rw [heq, pyFormatCore_braceFree name f post hplen hpost]
      rfl
  | cons c pre' ih =>
    intro fuel hpre hlen
    cases fuel with
    | zero => simp at hlen
    | succ f =>
      obtain ⟨hc, hpre'⟩ := Bool.and_eq_true_iff.mp
        (show ((c != lbrace && c != rbrace) && braceFree pre') = true from hpre)
      obtain ⟨hc1, hc2⟩ := Bool.and_eq_true_iff.mp hc
      show pyFormatCore name (f + 1) (c :: (pre' ++ litName.data ++ post)) =
        some (c :: (pre' ++ name ++ post))
      unfold pyFormatCore
      rw [if_neg (by simpa using hc1), if_neg (by simpa using hc2)]
      rw [ih f hpre' (by simp at hlen ⊢; omega)]
      rfl

theorem braceFree_append {x y : List Char} (hx : braceFree x = true)
    (hy : braceFree y = true) : braceFree (x ++ y) = true := by
  simp [braceFree, List.all_append] at hx hy ⊢
  exact ⟨hx, hy⟩

theorem pyFormat_of_core {nm tmpl : String} {r : List Char}
    (h : pyFormatCore nm.data (tmpl.data.length + 1) tmpl.data = some r) :
    pyFormat nm tmpl = some ⟨r⟩ := by
  unfold pyFormat
  rw [h]
  rfl

theorem replace_path_filename_eq (path f_name : String) {r : String}
    (h : pyFormat (splitExt (osSplit path).2).1
      (f_name ++ (splitExt (osSplit path).2).2) = some r) :
    replace_path_filename path f_name = some (posixJoin (osSplit path).1 r) := by
  unfold replace_path_filename
  show (pyFormat (splitExt (osSplit path).2).1
    (f_name ++ (splitExt (osSplit path).2).2)).map
    (fun b => posixJoin (osSplit path).1 b) = _
  rw [h]
  rfl

/-- The three templates `create_path_map` builds never make the format
step raise when the formatted date and the extension are brace-free. -/
theorem replace_path_filename_ok (path f_date : String)
    (hfd : braceFree f_date.data = true)
    (hext : braceFree (splitExt (osSplit path).2).2.data = true) :
    (∃ r, replace_path_filename path f_date = some r) ∧
    (∃ r, replace_path_filename path (f_date ++ litName) = some r) ∧
    (∃ r, replace_path_filename path (litName ++ f_date) = some r) := by
  refine ⟨?_, ?_, ?_⟩
  · have hb : braceFree (f_date ++ (splitExt (osSplit path).2).2).data = true := by
      rw [String.data_append]
      exact braceFree_append hfd hext
    exact ⟨_, replace_path_filename_eq path f_date
      (pyFormat_of_core (pyFormatCore_braceFree _ _ _ (by omega) hb))⟩
  · have hd : ((f_date ++ litName) ++ (splitExt (osSplit path).2).2).data =
        f_date.data ++ litName.data ++ (splitExt (osSplit path).2).2.data := by
      rw [String.data_append, String.data_append]
    have hcore := pyFormatCore_litName (splitExt (osSplit path).2).1.data
      (splitExt (osSplit path).2).2.data hext f_date.data
      (((f_date ++ litName) ++ (splitExt (osSplit path).2).2).data.length + 1)
      hfd (by rw [hd]; omega)
    rw [← hd] at hcore
    exact ⟨_, replace_path_filename_eq path (f_date ++ litName)
      (pyFormat_of_core hcore)⟩
  · have hd : ((litName ++ f_date) ++ (splitExt (osSplit path).2).2).data =
        [] ++ litName.data ++ (f_date.data ++ (splitExt (osSplit path).2).2.data) := by
      rw [String.data_append, String.data_append]
      simp
    have hcore := pyFormatCore_litName (splitExt (osSplit path).2).1.data
      (f_date.data ++ (splitExt (osSplit path).2).2.data)
      (braceFree_append hfd hext) []
      (((litName ++ f_date) ++ (splitExt (osSplit path).2).2).data.length + 1)
      rfl (by rw [hd]; omega)
    rw [← hd] at hcore
    exact ⟨_, replace_path_filename_eq path (litName ++ f_date)
      (pyFormat_of_core hcore)⟩

theorem createStep_ok (env : Env) (cfg : Cfg) (acc : List PathMap × List String)
    (path : String)
    (hfmt : ∀ t, braceFree (env.strftime t cfg.date_format).data = true)
    (hext : braceFree (splitExt (osSplit path).2).2.data = true) :
    ∃ acc', createStep env cfg acc path = .ok acc' := by
  unfold createStep
  by_cases hnd : (resolve_best_datetime env path).dtype ≠ DateType.NO_DATA
  · rw [if_pos hnd]
    have hdt : ∃ t, (resolve_best_datetime env path).dt = some t := by
      have hinv := dpInv_resolve env path
      unfold dpInv at hinv
      cases hdtv : (resolve_best_datetime env path).dt with
      | some t => exact ⟨t, rfl⟩
      | none => exact absurd (hinv.mp hdtv) hnd
    obtain ⟨t, ht⟩ := hdt
    rw [ht]
    dsimp only
    obtain ⟨h1, h2, h3⟩ := replace_path_filename_ok path
      (env.strftime t cfg.date_format) (hfmt t) hext
    cases hm : cfg.naming_method with
    | DATE_ONLY =>
      obtain ⟨r, hr⟩ := h1
      rw [hr]
      exact ⟨_, rfl⟩
    | DATE_BEFORE_ORIGINAL =>
      obtain ⟨r, hr⟩ := h2
      rw [hr]
      exact ⟨_, rfl⟩
    | DATE_AFTER_ORIGINAL =>
      obtain ⟨r, hr⟩ := h3
      rw [hr]
      exact ⟨_, rfl⟩
  · rw [if_neg hnd]
    exact ⟨_, rfl⟩

/-- C4 counterexample: the single-brace date format contains no
filesystem-illegal character and no rejected placeholder, the sample
file's date resolves, and yet `create_path_map` raises while building
the formatted name (the brace reaches `str.format`). -/
theorem valid_format_still_raises :
    extract_invalid_formats fmtBrace = [] ∧
    extract_invalid_chars fmtBrace = [] ∧
    resolve_best_datetime envC4 "/d/a.jpg" = ⟨some 0, DateType.TAKEN⟩ ∧
    create_path_map envC4 cfgC4 ["/d/a.jpg"] = .error () :=
  ⟨rfl, rfl, rfl, rfl⟩

/-- C4 amended: `create_path_map` returns normally whenever the
formatted dates and the extensions of the batch are free of brace
characters (which template validation does not itself guarantee). -/
theorem create_path_map_never_raises (env : Env) (cfg : Cfg) (paths : List String)
    (hfmt : ∀ t, braceFree (env.strftime t cfg.date_format).data = true)
    (hext : ∀ p ∈ paths, braceFree (splitExt (osSplit p).2).2.data = true) :
    exceptOk (create_path_map env cfg paths) = true := by
  have aux : ∀ (ps : List String) (acc : List PathMap × List String),
      (∀ p ∈ ps, braceFree (splitExt (osSplit p).2).2.data = true) →
      ∃ r, ps.foldlM (createStep env cfg) acc = .ok r := by
    intro ps
    induction ps with
    | nil => intro acc _; exact ⟨acc, rfl⟩
    | cons p ps ih =>
      intro acc h
      obtain ⟨acc', hs⟩ := createStep_ok env cfg acc p hfmt (h p (by simp))
      obtain ⟨r, hr⟩ := ih acc' (fun q hq => h q (by simp [hq]))
      refine ⟨r, ?_⟩
      rw [List.foldlM_cons, hs]
      exact hr
  obtain ⟨r, hr⟩ := aux paths ([], []) hext
  unfold create_path_map
  rw [hr]
  rfl

/-- C4 amended witness: a brace-free formatted date goes through. -/
theorem create_path_map_never_raises_witness :
    exceptOk (create_path_map envW4 cfgW4 ["/d/a.jpg"]) = true :=
  create_path_map_never_raises envW4 cfgW4 ["/d/a.jpg"] (fun t => rfl)
    (by intro p hp; rw [List.mem_singleton] at hp; subst hp; rfl)

end PhotoRename
